import Mathlib

/-!
Verification of the task scoring core of the Smart Task Analyzer
(`backend/tasks/scoring.py`, class `TaskScorer`).

Shallow embedding conventions:
* Python dates are modelled as `Int` (a day count); `today` is passed
  explicitly to every function that reads the ambient clock.
* Python floats are modelled as `ℚ`; the literals `0.35`, `1.1`, `2.0`
  become the exact rationals `35/100`, `11/10`, `2`.
* A task dictionary is a structure of optional fields; an absent key is
  `none`.  A `due_date` value is either a parseable date (a date object,
  a datetime object, or a string one of the two parse attempts accepts),
  an unparseable string, or absent — the three outcomes of the
  normalization chain in `score_task`.
* Python's `hash` of a string is seed dependent; it is passed in as an
  explicit parameter `h : String → Int`.
* `round(x, 2)` (round half to even on the scaled value) is modelled
  exactly on rationals.
-/

namespace Scoring

/-- Outcome of the due-date normalization chain of `score_task`:
`dateV d` covers a `date`/`datetime` value and a string that one of the
two `strptime`/`fromisoformat` attempts parses to the date `d`;
`badStr` is a string both attempts reject; `missing` is an absent key. -/
inductive DateInput where
  | missing : DateInput
  | dateV : Int → DateInput
  | badStr : DateInput
deriving DecidableEq, Repr

/-- A task dictionary as consumed by `TaskScorer`. -/
structure Task where
  id : Option Int
  title : String
  due_date : DateInput
  importance : Option Int
  estimated_hours : Option ℚ
  dependencies : Option (List Int)
deriving DecidableEq, Repr

/-- Strategy weights (`TaskScorer.STRATEGIES` values / `self.weights`). -/
structure Weights where
  urgency : ℚ
  importance : ℚ
  effort : ℚ
  dependency : ℚ
deriving DecidableEq, Repr

/-- The `smart_balance` strategy, the constructor default and fallback. -/
def smartBalance : Weights := ⟨35/100, 30/100, 20/100, 15/100⟩

/-- The `fastest_wins` strategy. -/
def fastestWins : Weights := ⟨20/100, 15/100, 50/100, 15/100⟩

/-- The `high_impact` strategy. -/
def highImpact : Weights := ⟨20/100, 60/100, 10/100, 10/100⟩

/-- The `deadline_driven` strategy. -/
def deadlineDriven : Weights := ⟨70/100, 20/100, 5/100, 5/100⟩

/-- Embeds `STRATEGIES.get(strategy, STRATEGIES['smart_balance'])` from `__init__`. -/
def strategyWeights (strategy : String) : Weights :=
  if strategy = "smart_balance" then smartBalance
  else if strategy = "fastest_wins" then fastestWins
  else if strategy = "high_impact" then highImpact
  else if strategy = "deadline_driven" then deadlineDriven
  else smartBalance

/-- Python `min(a, b)`, written so that the kernel can evaluate it. -/
def pyMin (a b : ℚ) : ℚ := if a ≤ b then a else b

/-- Python `max(a, b)`, written so that the kernel can evaluate it. -/
def pyMax (a b : ℚ) : ℚ := if b ≤ a then a else b

/-- Python `round(x, 2)`: round half to even at two decimal places,
modelled exactly on the rational value. -/
def round2 (q : ℚ) : ℚ :=
  let y : ℚ := q * 100
  let f : Int := y.floor
  let r : ℚ := y - f
  (if r < 1/2 then (f : ℚ)
   else if 1/2 < r then (f : ℚ) + 1
   else if f % 2 = 0 then (f : ℚ) else (f : ℚ) + 1) / 100

/-- Embeds `TaskScorer.calculate_urgency_score`.  Returns `(score, days_until_due)`
with `days_until_due = due_date - today`. -/
def calculate_urgency_score (today due_date : Int) : ℚ × Int :=
  let days_until_due : Int := due_date - today
  if days_until_due < 0 then
    (pyMin 100 (80 + (days_until_due.natAbs : ℚ) * 4), days_until_due)
  else if days_until_due = 0 then
    (95, days_until_due)
  else if days_until_due ≤ 3 then
    (90 - (days_until_due : ℚ) * 5, days_until_due)
  else if days_until_due ≤ 7 then
    (70 - ((days_until_due : ℚ) - 3) * 5, days_until_due)
  else if days_until_due ≤ 14 then
    (50 - ((days_until_due : ℚ) - 7) * 2, days_until_due)
  else if days_until_due ≤ 30 then
    (pyMax 10 (30 - ((days_until_due : ℚ) - 14) * 1), days_until_due)
  else
    (pyMax 5 (20 - (days_until_due : ℚ) / 10), days_until_due)

/-- Embeds `TaskScorer.calculate_importance_score`. -/
def calculate_importance_score (importance : Int) : ℚ :=
  let base_score : ℚ := (importance : ℚ) / 10 * 100
  if importance ≥ 8 then pyMin 100 (base_score * (11/10)) else base_score

/-- Embeds `TaskScorer.calculate_effort_score`. -/
def calculate_effort_score (estimated_hours : ℚ) : ℚ :=
  if estimated_hours ≤ 1/2 then 95
  else if estimated_hours ≤ 1 then 85
  else if estimated_hours ≤ 2 then 75
  else if estimated_hours ≤ 4 then 60
  else if estimated_hours ≤ 8 then 40
  else pyMax 10 (100 - estimated_hours * 8)

/-- Embeds `TaskScorer.calculate_dependency_score`: counts the tasks of the batch
whose raw `dependencies` list (`task.get('dependencies', [])`) contains
`task_id`, then maps the count to a score. -/
def calculate_dependency_score (task_id : Int) (tasks : List Task) : ℚ × Nat :=
  let dependent_count : Nat :=
    (tasks.filter (fun t => task_id ∈ t.dependencies.getD [])).length
  if dependent_count = 0 then (10, 0)
  else if dependent_count = 1 then (40, 1)
  else if dependent_count = 2 then (70, 2)
  else (pyMin 100 (70 + ((dependent_count : ℚ) - 2) * 15), dependent_count)

/-- Embeds `TaskScorer._generate_explanation`. -/
def generate_explanation (urgency_score importance_score : ℚ)
    (_effort_score _dependency_score : ℚ) (days_until_due : Int)
    (dependent_count : Nat) (estimated_hours : ℚ) : String :=
  let reasons : List String :=
    (if days_until_due < 0 then
       ["overdue by " ++ toString days_until_due.natAbs ++ " day(s)"]
     else if days_until_due = 0 then ["due today"]
     else if days_until_due ≤ 3 then
       ["due in " ++ toString days_until_due ++ " day(s)"]
     else if urgency_score > 50 then ["approaching deadline"]
     else []) ++
    (if importance_score ≥ 80 then ["high importance rating"]
     else if importance_score ≥ 60 then ["moderate importance"]
     else []) ++
    (if estimated_hours ≤ 1 then ["quick win (<1 hour)"]
     else if estimated_hours ≤ 2 then ["short task"]
     else if estimated_hours ≥ 8 then ["substantial effort required"]
     else []) ++
    (if dependent_count > 0 then
       ["blocks " ++ toString dependent_count ++ " other task(s)"]
     else [])
  if reasons = [] then "Standard priority task"
  else "Priority due to: " ++ String.intercalate ", " reasons ++ "."

/-- The enriched dictionary returned by `TaskScorer.score_task`
(the documented computed fields plus the normalized task fields). -/
structure ScoredTask where
  id : Int
  title : String
  priority_score : ℚ
  urgency_score : ℚ
  importance_score : ℚ
  effort_score : ℚ
  dependency_score : ℚ
  explanation : String
  priority_level : String
  days_until_due : Int
  due_date : Int
  estimated_hours : ℚ
  importance : Int
  dependencies : List Int
deriving DecidableEq, Repr

/-- Embeds `TaskScorer.score_task`.  `h` models Python's string `hash`
(used when the `id` field is absent or falsy), `w` is `self.weights`,
`today` is `datetime.now().date()`. -/
def score_task (h : String → Int) (w : Weights) (today : Int)
    (task : Task) (tasks : List Task) : ScoredTask :=
  let task_id : Int :=
    match task.id with
    | some v => if v = 0 then h task.title else v
    | none => h task.title
  let due_date : Int :=
    match task.due_date with
    | DateInput.dateV d => d
    | _ => today + 7
  let importance : Int :=
    match task.importance with
    | some v => if v = 0 then 5 else v
    | none => 5
  let estimated_hours : ℚ :=
    match task.estimated_hours with
    | some q => if q = 0 then 2 else q
    | none => 2
  let dependencies : List Int := task.dependencies.getD []
  let u := calculate_urgency_score today due_date
  let urgency_score := u.1
  let days_until_due := u.2
  let importance_score := calculate_importance_score importance
  let effort_score := calculate_effort_score estimated_hours
  let d := calculate_dependency_score task_id tasks
  let dependency_score := d.1
  let dependent_count := d.2
  let priority_score : ℚ :=
    w.urgency * urgency_score + w.importance * importance_score +
    w.effort * effort_score + w.dependency * dependency_score
  let explanation := generate_explanation urgency_score importance_score
    effort_score dependency_score days_until_due dependent_count estimated_hours
  let priority_level : String :=
    if priority_score ≥ 75 then "High"
    else if priority_score ≥ 50 then "Medium"
    else "Low"
  { id := task_id
    title := task.title
    priority_score := round2 priority_score
    urgency_score := round2 urgency_score
    importance_score := round2 importance_score
    effort_score := round2 effort_score
    dependency_score := round2 dependency_score
    explanation := explanation
    priority_level := priority_level
    days_until_due := days_until_due
    due_date := due_date
    estimated_hours := estimated_hours
    importance := importance
    dependencies := dependencies }

/-! ## Cycle detection (`TaskScorer.detect_circular_dependencies`)

The Python function builds
`task_map = {task.get('id', i): task for i, task in enumerate(tasks)}`
(a dict: first-occurrence key order, last-occurrence value wins) and
`graph = {task_id: task.get('dependencies', []) ...}`, then runs a
recursive depth-first search with shared `visited` / `rec_stack` sets and
a shared `cycle_path` accumulator.

The recursion is embedded with an explicit fuel argument so that every
definition is structurally recursive (hence evaluates inside the kernel);
`detect_fuel` below is proved sufficient, and the result is proved
independent of any extra fuel, which is the termination statement. -/

/-- Embeds `task.get('id', i)`: the dict key of the `i`-th task. -/
def taskKey (i : Nat) (t : Task) : Int := t.id.getD (Int.ofNat i)

/-- The keys of the `i`-indexed tasks, in input order, with repetitions. -/
def rawKeys (tasks : List Task) : List Int :=
  tasks.enum.map (fun p => taskKey p.1 p.2)

/-- First-occurrence deduplication (Python dict key order), with an
accumulator of already-seen keys. -/
def dedupKeysAux (seen : List Int) : List Int → List Int
  | [] => []
  | k :: ks =>
    if k ∈ seen then dedupKeysAux seen ks
    else k :: dedupKeysAux (k :: seen) ks

/-- Python dict key order: first occurrence of each key, in input order. -/
def dedupKeys (l : List Int) : List Int := dedupKeysAux [] l

/-- The iteration order of `for task_id in graph`. -/
def keysList (tasks : List Task) : List Int := dedupKeys (rawKeys tasks)

/-- The last enumerated task carrying a given key (dict values are
overwritten by later insertions with the same key). -/
def lastTaskWithKey (n : Int) : List (Nat × Task) → Option Task
  | [] => none
  | p :: rest =>
    match lastTaskWithKey n rest with
    | some u => some u
    | none => if taskKey p.1 p.2 = n then some p.2 else none

/-- Embeds `graph.get(node, [])`: the dependency list of the task stored under a
key, or `[]` for a node that is not a key. -/
def adjacency (tasks : List Task) (n : Int) : List Int :=
  match lastTaskWithKey n tasks.enum with
  | some t => t.dependencies.getD []
  | none => []

/-- All node identifiers the search can ever visit: every key and every
dependency entry, first occurrences only (so the list has no duplicates
and its length bounds the number of visitable nodes). -/
def univNodes (tasks : List Task) : List Int :=
  dedupKeys (rawKeys tasks ++ tasks.flatMap (fun t => t.dependencies.getD []))

/-- Python `list.index`: index of the first occurrence. -/
def idxOfInt (a : Int) : List Int → Nat
  | [] => 0
  | b :: l => if b = a then 0 else idxOfInt a l + 1

/-- The mutable state shared by the recursive `dfs` closures:
`visited`, `rec_stack` (modelled as lists used as sets) and the
`cycle_path` accumulator. -/
structure DfsState where
  visited : List Int
  recStack : List Int
  cyclePath : List Int
deriving DecidableEq, Repr

/-- The `for neighbor in graph.get(node, [])` loop body of `dfs`,
parameterized by the recursive call at smaller fuel (`visitF`).
`path1` is the Python `path` list after `path.append(node)`; the `[]`
case is the fall-through `path.pop(); rec_stack.remove(node); return
False` (popping the path is implicit because `path` is passed by value).
Returns `none` only on fuel exhaustion inside `visitF`. -/
def dfsLoop (visitF : Int → List Int → DfsState → Option (Bool × DfsState))
    (node : Int) (path1 : List Int) :
    List Int → DfsState → Option (Bool × DfsState)
  | [], st =>
    some (false, { st with recStack := st.recStack.erase node })
  | nb :: rest, st =>
    if nb ∉ st.visited then
      match visitF nb path1 st with
      | none => none
      | some (true, st1) => some (true, st1)
      | some (false, st1) => dfsLoop visitF node path1 rest st1
    else if nb ∈ st.recStack then
      some (true,
        { st with cyclePath := st.cyclePath ++ path1.drop (idxOfInt nb path1) })
    else dfsLoop visitF node path1 rest st

/-- The recursive `dfs(node, path)` of `detect_circular_dependencies`,
with explicit fuel.  On entry the node is marked visited and pushed on
the recursion stack and the path, exactly as in the source. -/
def dfsVisit (adj : Int → List Int) :
    Nat → Int → List Int → DfsState → Option (Bool × DfsState)
  | 0, _, _, _ => none
  | Nat.succ f, node, path, st =>
    dfsLoop (fun nb p s => dfsVisit adj f nb p s) node (path ++ [node])
      (adj node)
      { st with visited := node :: st.visited, recStack := node :: st.recStack }

/-- The `for task_id in graph: if task_id not in visited: if dfs(...)`
driver loop.  A `none` from `dfsVisit` (fuel exhaustion) is mapped to
`(false, [])`; the fuel bound used by `detect_circular_dependencies` is
proved to make that case unreachable. -/
def detectLoop (adj : Int → List Int) (fuel : Nat) :
    List Int → DfsState → Bool × List Int
  | [], _ => (false, [])
  | k :: ks, st =>
    if k ∉ st.visited then
      match dfsVisit adj fuel k [] st with
      | some (true, st1) => (true, st1.cyclePath)
      | some (false, st1) => detectLoop adj fuel ks st1
      | none => (false, [])
    else detectLoop adj fuel ks st

/-- Fuel that is proved sufficient for the search: one unit per
visitable node, plus one. -/
def detect_fuel (tasks : List Task) : Nat := (univNodes tasks).length + 1

/-- Embeds `TaskScorer.detect_circular_dependencies`, with a given fuel. -/
def detectWithFuel (tasks : List Task) (fuel : Nat) : Bool × List Int :=
  detectLoop (adjacency tasks) fuel (keysList tasks) ⟨[], [], []⟩

/-- Embeds `TaskScorer.detect_circular_dependencies`. -/
def detect_circular_dependencies (tasks : List Task) : Bool × List Int :=
  detectWithFuel tasks (detect_fuel tasks)

/-! ## `analyze_tasks` and `get_top_suggestions` -/

/-- The descending priority order used by
`sorted(scored_tasks, key=lambda x: x['priority_score'], reverse=True)`. -/
def scoreGE (a b : ScoredTask) : Prop := b.priority_score ≤ a.priority_score

instance : DecidableRel scoreGE :=
  fun a b => inferInstanceAs (Decidable (b.priority_score ≤ a.priority_score))

instance : IsTotal ScoredTask scoreGE :=
  ⟨fun a b => le_total b.priority_score a.priority_score⟩

instance : IsTrans ScoredTask scoreGE :=
  ⟨fun _ _ _ h1 h2 => le_trans h2 h1⟩

/-- Embeds `TaskScorer.analyze_tasks`.  Python's `sorted` (a stable sort on the
`priority_score` key, descending) is modelled by the stable
`List.insertionSort` on `scoreGE`. -/
def analyze_tasks (h : String → Int) (w : Weights) (today : Int)
    (tasks : List Task) : List ScoredTask × Option String :=
  if tasks.isEmpty then ([], some "No tasks provided")
  else
    let hc := detect_circular_dependencies tasks
    if hc.1 then
      ([], some ("Circular dependency detected: " ++
        String.intercalate " -> " (hc.2.map toString)))
    else
      let scored_tasks := tasks.map (fun t => score_task h w today t tasks)
      (scored_tasks.insertionSort scoreGE, none)

/-- Embeds `TaskScorer._generate_detailed_suggestion`. -/
def generate_detailed_suggestion (task : ScoredTask) (rank : Nat) : String :=
  let base := "Suggestion #" ++ toString rank ++ ": "
  if task.days_until_due < 0 then
    base ++ "This task is overdue and should be addressed immediately. " ++
      task.explanation
  else if task.days_until_due = 0 then
    base ++ "This task is due today. " ++ task.explanation
  else if task.priority_score ≥ 75 then
    base ++ "High priority task. " ++ task.explanation
  else
    base ++ "Recommended based on balanced factors. " ++ task.explanation

/-- A suggestion dictionary of `get_top_suggestions`. -/
structure Suggestion where
  task : ScoredTask
  score : ℚ
  explanation : String
  rank : Nat
deriving DecidableEq, Repr

/-- Embeds `TaskScorer.get_top_suggestions`. -/
def get_top_suggestions (h : String → Int) (w : Weights) (today : Int)
    (tasks : List Task) (count : Nat) : List Suggestion :=
  let r := analyze_tasks h w today tasks
  match r.2 with
  | some _ => []
  | none =>
    let top_tasks := r.1.take count
    top_tasks.enum.map (fun p =>
      { task := p.2
        score := p.2.priority_score
        explanation := generate_detailed_suggestion p.2 (p.1 + 1)
        rank := p.1 + 1 })

/-! ## Graph-side specification and helper lemmas -/

/-- The edge relation of the dependency graph the detector builds:
`a → b` when `b` occurs in the dependency list stored under key `a`. -/
def edgeRel (adj : Int → List Int) (a b : Int) : Prop := b ∈ adj a

/-- The specification-level notion of a cyclic batch: some node lies on a
directed cycle of the dependency graph. -/
def hasCycleSpec (tasks : List Task) : Prop :=
  ∃ n, Relation.TransGen (edgeRel (adjacency tasks)) n n

theorem mem_dedupKeysAux {x : Int} :
    ∀ (l seen : List Int), x ∈ dedupKeysAux seen l ↔ x ∈ l ∧ x ∉ seen := by
  intro l
  induction l with
  | nil => intro seen; simp [dedupKeysAux]
  | cons k ks ih =>
    intro seen
    by_cases hk : k ∈ seen
    · simp only [dedupKeysAux, if_pos hk, ih, List.mem_cons]
      constructor
      · rintro ⟨h1, h2⟩; exact ⟨Or.inr h1, h2⟩
      · rintro ⟨h1 | h1, h2⟩
        · exact absurd (h1 ▸ hk) h2
        · exact ⟨h1, h2⟩
    · simp only [dedupKeysAux, if_neg hk, List.mem_cons, ih]
      by_cases hxk : x = k
      · subst hxk; simp [hk]
      · simp only [hxk, false_or]

theorem mem_dedupKeys {x : Int} {l : List Int} : x ∈ dedupKeys l ↔ x ∈ l := by
  simp [dedupKeys, mem_dedupKeysAux]

theorem nodup_dedupKeysAux :
    ∀ (l seen : List Int), (dedupKeysAux seen l).Nodup := by
  intro l
  induction l with
  | nil => intro seen; simp [dedupKeysAux]
  | cons k ks ih =>
    intro seen
    by_cases hk : k ∈ seen
    · simpa [dedupKeysAux, if_pos hk] using ih seen
    · simp only [dedupKeysAux, if_neg hk, List.nodup_cons]
      refine ⟨fun hmem => ?_, ih (k :: seen)⟩
      exact ((mem_dedupKeysAux ks (k :: seen)).mp hmem).2 (List.mem_cons_self k seen)

theorem nodup_dedupKeys (l : List Int) : (dedupKeys l).Nodup :=
  nodup_dedupKeysAux l []

theorem nodup_univNodes (tasks : List Task) : (univNodes tasks).Nodup :=
  nodup_dedupKeys _

theorem keysList_subset_univNodes {tasks : List Task} {a : Int}
    (ha : a ∈ keysList tasks) : a ∈ univNodes tasks := by
  rw [keysList, mem_dedupKeys] at ha
  rw [univNodes, mem_dedupKeys]
  exact List.mem_append_left _ ha

theorem lastTaskWithKey_spec {n : Int} {t : Task} :
    ∀ {l : List (Nat × Task)}, lastTaskWithKey n l = some t →
      ∃ i, (i, t) ∈ l ∧ taskKey i t = n := by
  intro l
  induction l with
  | nil => intro h; simp [lastTaskWithKey] at h
  | cons p rest ih =>
    intro h
    rw [lastTaskWithKey] at h
    rcases hrest : lastTaskWithKey n rest with _ | u
    · rw [hrest] at h
      by_cases hkey : taskKey p.1 p.2 = n
      · simp only [if_pos hkey] at h
        obtain rfl : p.2 = t := by injection h
        exact ⟨p.1, List.mem_cons_self _ _, hkey⟩
      · simp [if_neg hkey] at h
    · rw [hrest] at h
      obtain rfl : u = t := by injection h
      obtain ⟨i, hmem, hk⟩ := ih hrest
      exact ⟨i, List.mem_cons_of_mem _ hmem, hk⟩

theorem snd_mem_of_mem_enumFrom {t : Task} :
    ∀ {l : List Task} {j : Nat} {i : Nat}, (i, t) ∈ l.enumFrom j → t ∈ l := by
  intro l
  induction l with
  | nil => intro j i h; simp at h
  | cons x xs ih =>
    intro j i h
    rw [List.enumFrom_cons, List.mem_cons] at h
    rcases h with h | h
    · have hx : x = t := (congrArg Prod.snd h).symm
      exact hx ▸ List.mem_cons_self _ _
    · exact List.mem_cons_of_mem _ (ih h)

theorem adjacency_subset_univNodes {tasks : List Task} {a b : Int}
    (hb : b ∈ adjacency tasks a) : b ∈ univNodes tasks := by
  rw [adjacency] at hb
  rcases hlt : lastTaskWithKey a tasks.enum with _ | t
  · rw [hlt] at hb; simp at hb
  · rw [hlt] at hb
    obtain ⟨i, hmem, -⟩ := lastTaskWithKey_spec hlt
    have ht : t ∈ tasks := snd_mem_of_mem_enumFrom hmem
    rw [univNodes, mem_dedupKeys]
    refine List.mem_append_right _ ?_
    exact List.mem_flatMap.mpr ⟨t, ht, hb⟩

theorem edge_src_mem_keysList {tasks : List Task} {a b : Int}
    (hb : b ∈ adjacency tasks a) : a ∈ keysList tasks := by
  rw [adjacency] at hb
  rcases hlt : lastTaskWithKey a tasks.enum with _ | t
  · rw [hlt] at hb; simp at hb
  · obtain ⟨i, hmem, hk⟩ := lastTaskWithKey_spec hlt
    rw [keysList, mem_dedupKeys, rawKeys]
    exact List.mem_map.mpr ⟨(i, t), by simpa [List.enum] using hmem, hk⟩

theorem length_lt_of_nodup_subset {l u : List Int} {a : Int}
    (hl : l.Nodup) (hsub : ∀ x ∈ l, x ∈ u) (hu : u.Nodup)
    (ha : a ∈ u) (hna : a ∉ l) : l.length < u.length := by
  classical
  have h1 : l.toFinset.card = l.length := List.toFinset_card_of_nodup hl
  have h2 : u.toFinset.card = u.length := List.toFinset_card_of_nodup hu
  have hsub' : insert a l.toFinset ⊆ u.toFinset := by
    intro x hx
    rcases Finset.mem_insert.mp hx with rfl | hx
    · exact List.mem_toFinset.mpr ha
    · exact List.mem_toFinset.mpr (hsub x (List.mem_toFinset.mp hx))
  have hcard : (insert a l.toFinset).card = l.toFinset.card + 1 :=
    Finset.card_insert_of_not_mem (fun hx => hna (List.mem_toFinset.mp hx))
  have := Finset.card_le_card hsub'
  omega

theorem reflTransGen_of_chain {r : Int → Int → Prop} :
    ∀ (l : List Int) (a b : Int), List.Chain r a l →
      (a :: l).getLast (by simp) = b → Relation.ReflTransGen r a b := by
  intro l
  induction l with
  | nil =>
    intro a b _ hlast
    simp only [List.getLast_singleton] at hlast
    exact hlast ▸ Relation.ReflTransGen.refl
  | cons x xs ih =>
    intro a b hchain hlast
    rcases hchain with _ | ⟨hax, hrest⟩
    have hlast' : (x :: xs).getLast (by simp) = b := by
      rw [← hlast]
      exact (List.getLast_cons_cons a x xs).symm ▸ rfl
    exact Relation.ReflTransGen.head hax (ih x b hrest hlast')

theorem transGen_of_cycle_in_path {r : Int → Int → Prop} {l : List Int}
    {nb last : Int} (hchain : List.Chain' r l) (hne : l ≠ [])
    (hnb : nb ∈ l) (hlast : l.getLast hne = last) (hedge : r last nb) :
    Relation.TransGen r nb nb := by
  obtain ⟨u, v, rfl⟩ := List.append_of_mem hnb
  have hchain2 : List.Chain' r (nb :: v) := hchain.suffix ⟨u, rfl⟩
  have hlast2 : (nb :: v).getLast (by simp) = last := by
    rw [← hlast]
    exact (List.getLast_append' u (nb :: v) (by simp)).symm
  have hrt : Relation.ReflTransGen r nb last :=
    reflTransGen_of_chain v nb last hchain2 hlast2
  exact Relation.TransGen.tail' hrt hedge

theorem drop_idxOfInt_cons {nb : Int} :
    ∀ {l : List Int}, nb ∈ l → ∃ v, l.drop (idxOfInt nb l) = nb :: v := by
  intro l
  induction l with
  | nil => intro h; simp at h
  | cons x xs ih =>
    intro h
    by_cases hx : x = nb
    · subst hx
      exact ⟨xs, by simp [idxOfInt]⟩
    · have hmem : nb ∈ xs := by
        rcases List.mem_cons.mp h with h | h
        · exact absurd h.symm hx
        · exact h
      obtain ⟨v, hv⟩ := ih hmem
      exact ⟨v, by simpa [idxOfInt, hx] using hv⟩

/-- The invariant that makes the search complete: no finished ("black")
node — visited and no longer on the recursion stack — lies on a cycle. -/
def blackOK (adj : Int → List Int) (st : DfsState) : Prop :=
  ∀ m, m ∈ st.visited → m ∉ st.recStack → ¬ Relation.TransGen (edgeRel adj) m m

/-- Full functional specification of the neighbor loop, given the
specification of the recursive visit at the remaining fuel `f`. -/
theorem dfsLoop_spec (adj : Int → List Int) (univ : List Int)
    (hAdjU : ∀ a b, b ∈ adj a → b ∈ univ)
    (f : Nat)
    (IH : ∀ node path st,
      univ.length ≤ f + st.visited.length →
      node ∈ univ → node ∉ st.visited →
      st.visited.Nodup → (∀ x ∈ st.visited, x ∈ univ) →
      (∀ x ∈ st.recStack, x ∈ st.visited) →
      (∀ x, x ∈ st.recStack ↔ x ∈ path) →
      List.Chain' (edgeRel adj) (path ++ [node]) →
      blackOK adj st →
      ∃ res st',
        dfsVisit adj f node path st = some (res, st') ∧
        (∃ e, st'.visited = e ++ st.visited) ∧
        node ∈ st'.visited ∧ st'.visited.Nodup ∧
        (∀ x ∈ st'.visited, x ∈ univ) ∧
        (res = false → st'.recStack = st.recStack ∧
          (∀ x ∈ st'.recStack, x ∈ st'.visited) ∧ blackOK adj st') ∧
        (res = true →
          (∃ m, Relation.TransGen (edgeRel adj) m m) ∧ st'.cyclePath ≠ [])) :
    ∀ (nbs : List Int) (curNode : Int) (path1 rs0 : List Int) (st : DfsState),
      (∀ x ∈ nbs, x ∈ adj curNode) →
      univ.length ≤ f + st.visited.length →
      st.visited.Nodup → (∀ x ∈ st.visited, x ∈ univ) →
      (∀ x ∈ st.recStack, x ∈ st.visited) →
      (∀ x, x ∈ st.recStack ↔ x ∈ path1) →
      st.recStack = curNode :: rs0 →
      List.Chain' (edgeRel adj) path1 →
      path1.getLast? = some curNode →
      blackOK adj st →
      (∀ x ∈ adj curNode, x ∉ nbs → x ∈ st.visited ∧ x ∉ st.recStack) →
      ∃ res st',
        dfsLoop (fun nb p s => dfsVisit adj f nb p s) curNode path1 nbs st =
          some (res, st') ∧
        (∃ e, st'.visited = e ++ st.visited) ∧
        st'.visited.Nodup ∧ (∀ x ∈ st'.visited, x ∈ univ) ∧
        (res = false → st'.recStack = rs0 ∧
          (∀ x ∈ st'.recStack, x ∈ st'.visited) ∧ blackOK adj st') ∧
        (res = true →
          (∃ m, Relation.TransGen (edgeRel adj) m m) ∧ st'.cyclePath ≠ []) := by
  intro nbs curNode path1 rs0
  induction nbs with
  | nil =>
    intro st hnbs hfuel hvnd hvsub hrssub hrsiff hrseq hchain hlast hblack hdone
    refine ⟨false, { st with recStack := st.recStack.erase curNode },
      rfl, ⟨[], rfl⟩, hvnd, hvsub, ?_, ?_⟩
    · intro _
      have herase : st.recStack.erase curNode = rs0 := by
        rw [hrseq, List.erase_cons_head]
      refine ⟨herase, ?_, ?_⟩
      · intro x hx
        rw [herase] at hx
        exact hrssub x (hrseq ▸ List.mem_cons_of_mem _ hx)
      · -- the popped node and every previously black node avoid cycles
        intro m hmv hmrs
        rw [herase] at hmrs
        by_cases hmc : m = curNode
        · subst hmc
          intro hcyc
          obtain ⟨c, hedge, hrt⟩ := (Relation.TransGen.head'_iff).mp hcyc
          have hcblack := hdone c hedge (by simp)
          have hcyc2 : Relation.TransGen (edgeRel adj) c c :=
            Relation.TransGen.tail' hrt hedge
          exact hblack c hcblack.1 hcblack.2 hcyc2
        · have hmrs' : m ∉ st.recStack := by
            rw [hrseq]
            intro hx
            rcases List.mem_cons.mp hx with h | h
            · exact hmc h
            · exact hmrs h
          exact hblack m hmv hmrs'
    · intro h; cases h
  | cons nb rest ihl =>
    intro st hnbs hfuel hvnd hvsub hrssub hrsiff hrseq hchain hlast hblack hdone
    have hnbadj : nb ∈ adj curNode := hnbs nb (List.mem_cons_self _ _)
    by_cases hnbv : nb ∈ st.visited
    · by_cases hnbrs : nb ∈ st.recStack
      · -- grey neighbor: a cycle is reported
        have hnbp : nb ∈ path1 := (hrsiff nb).mp hnbrs
        have hne : path1 ≠ [] := List.ne_nil_of_mem hnbp
        have hlast' : path1.getLast hne = curNode := by
          have hq := List.getLast?_eq_getLast path1 hne
          rw [hq] at hlast
          exact Option.some.inj hlast
        have hcyc : Relation.TransGen (edgeRel adj) nb nb :=
          transGen_of_cycle_in_path hchain hne hnbp hlast' hnbadj
        obtain ⟨v, hv⟩ := drop_idxOfInt_cons hnbp
        refine ⟨true,
          { st with cyclePath := st.cyclePath ++ path1.drop (idxOfInt nb path1) },
          ?_, ⟨[], rfl⟩, hvnd, hvsub, ?_, ?_⟩
        · rw [dfsLoop, if_neg (not_not_intro hnbv), if_pos hnbrs]
        · intro h; cases h
        · intro _
          exact ⟨⟨nb, hcyc⟩, by simp [hv]⟩
      · -- already-black neighbor: skip
        obtain ⟨res, st', hrun, hext, hnd, hsub, hfalse, htrue⟩ :=
          ihl st (fun x hx => hnbs x (List.mem_cons_of_mem _ hx)) hfuel hvnd
            hvsub hrssub hrsiff hrseq hchain hlast hblack
            (fun x hx hnx => by
              by_cases hxnb : x = nb
              · subst hxnb; exact ⟨hnbv, hnbrs⟩
              · exact hdone x hx (fun hmem => by
                  rcases List.mem_cons.mp hmem with h | h
                  · exact hxnb h
                  · exact hnx h))
        refine ⟨res, st', ?_, hext, hnd, hsub, hfalse, htrue⟩
        rw [dfsLoop, if_neg (not_not_intro hnbv), if_neg hnbrs]
        exact hrun
    · -- white neighbor: recursive visit
      have hnbu : nb ∈ univ := hAdjU _ _ hnbadj
      have hchain2 : List.Chain' (edgeRel adj) (path1 ++ [nb]) := by
        refine List.Chain'.append hchain (by simp) ?_
        intro x hx y hy
        rw [hlast] at hx
        obtain rfl : curNode = x := Option.some.inj hx
        obtain rfl : nb = y := by simpa using hy
        exact hnbadj
      obtain ⟨res1, st1, hrun1, ⟨e1, he1⟩, hnode1, hnd1, hsub1, hfalse1, htrue1⟩ :=
        IH nb path1 st hfuel hnbu hnbv hvnd hvsub hrssub hrsiff hchain2 hblack
      rcases res1 with _ | _
      · -- inner visit finished without a cycle: continue the loop
        obtain ⟨hrs1, hrssub1, hblack1⟩ := hfalse1 rfl
        obtain ⟨res, st', hrun, ⟨e2, he2⟩, hnd', hsub', hfalse', htrue'⟩ :=
          ihl st1 (fun x hx => hnbs x (List.mem_cons_of_mem _ hx))
            (by rw [he1]; simp only [List.length_append]; omega)
            hnd1 hsub1 hrssub1
            (fun x => by rw [hrs1]; exact hrsiff x)
            (by rw [hrs1]; exact hrseq) hchain hlast hblack1
            (fun x hx hnx => by
              by_cases hxnb : x = nb
              · subst hxnb
                refine ⟨hnode1, ?_⟩
                rw [hrs1]
                intro hmem
                exact hnbv (hrssub _ hmem)
              · have hold := hdone x hx (fun hmem => by
                  rcases List.mem_cons.mp hmem with h | h
                  · exact hxnb h
                  · exact hnx h)
                refine ⟨by rw [he1]; exact List.mem_append_right _ hold.1, ?_⟩
                rw [hrs1]; exact hold.2)
        refine ⟨res, st', ?_, ⟨e2 ++ e1, by rw [he2, he1, List.append_assoc]⟩,
          hnd', hsub', hfalse', htrue'⟩
        rw [dfsLoop, if_pos hnbv, hrun1]
        exact hrun
      · -- inner visit found a cycle: propagate
        refine ⟨true, st1, ?_, ⟨e1, he1⟩, hnd1, hsub1, ?_, htrue1⟩
        · rw [dfsLoop, if_pos hnbv, hrun1]
        · intro h; cases h

/-- Full functional specification of `dfsVisit`: under the documented
invariants and a sufficient fuel, the visit returns, visited only grows,
a `false` answer restores the recursion stack and preserves `blackOK`,
and a `true` answer witnesses a real cycle and a non-empty cycle path. -/
theorem dfsVisit_spec (adj : Int → List Int) (univ : List Int)
    (hAdjU : ∀ a b, b ∈ adj a → b ∈ univ) (hUnivNodup : univ.Nodup) :
    ∀ (fuel : Nat) (node : Int) (path : List Int) (st : DfsState),
      univ.length ≤ fuel + st.visited.length →
      node ∈ univ → node ∉ st.visited →
      st.visited.Nodup → (∀ x ∈ st.visited, x ∈ univ) →
      (∀ x ∈ st.recStack, x ∈ st.visited) →
      (∀ x, x ∈ st.recStack ↔ x ∈ path) →
      List.Chain' (edgeRel adj) (path ++ [node]) →
      blackOK adj st →
      ∃ res st',
        dfsVisit adj fuel node path st = some (res, st') ∧
        (∃ e, st'.visited = e ++ st.visited) ∧
        node ∈ st'.visited ∧ st'.visited.Nodup ∧
        (∀ x ∈ st'.visited, x ∈ univ) ∧
        (res = false → st'.recStack = st.recStack ∧
          (∀ x ∈ st'.recStack, x ∈ st'.visited) ∧ blackOK adj st') ∧
        (res = true →
          (∃ m, Relation.TransGen (edgeRel adj) m m) ∧ st'.cyclePath ≠ []) := by
  intro fuel
  induction fuel with
  | zero =>
    intro node path st hfuel hnodeu hnodev hvnd hvsub hrssub hrsiff hchain hblack
    have := length_lt_of_nodup_subset hvnd hvsub hUnivNodup hnodeu hnodev
    omega
  | succ f ihf =>
    intro node path st hfuel hnodeu hnodev hvnd hvsub hrssub hrsiff hchain hblack
    have hloop := dfsLoop_spec adj univ hAdjU f ihf (adj node) node
      (path ++ [node]) st.recStack
      { st with visited := node :: st.visited, recStack := node :: st.recStack }
      (fun x hx => hx)
      (by simp only [List.length_cons]; omega)
      (List.nodup_cons.mpr ⟨hnodev, hvnd⟩)
      (fun x hx => by
        rcases List.mem_cons.mp hx with rfl | hx
        · exact hnodeu
        · exact hvsub x hx)
      (fun x hx => by
        rcases List.mem_cons.mp hx with rfl | hx
        · exact List.mem_cons_self _ _
        · exact List.mem_cons_of_mem _ (hrssub x hx))
      (fun x => by
        have hx := hrsiff x
        simp only [List.mem_cons, List.mem_append, List.mem_singleton]
        tauto)
      rfl hchain (List.getLast?_concat path)
      (by
        intro m hmv hmrs
        simp only [List.mem_cons, not_or] at hmv hmrs
        rcases hmv with rfl | hmv
        · exact absurd rfl hmrs.1
        · exact hblack m hmv hmrs.2)
      (fun x hx hnx => absurd hx hnx)
    obtain ⟨res, st', hrun, ⟨e, he⟩, hnd', hsub', hfalse', htrue'⟩ := hloop
    refine ⟨res, st', ?_, ⟨e ++ [node], by rw [he]; simp⟩,
      (by rw [he]; exact List.mem_append_right _ (List.mem_cons_self _ _)),
      hnd', hsub', ?_, htrue'⟩
    · rw [dfsVisit]
      exact hrun
    · intro hres
      obtain ⟨hrs, hrssub', hblack'⟩ := hfalse' hres
      exact ⟨hrs, hrssub', hblack'⟩

theorem detectLoop_false_path (adj : Int → List Int) (fuel : Nat) :
    ∀ (ks : List Int) (st : DfsState) (p : List Int),
      detectLoop adj fuel ks st = (false, p) → p = [] := by
  intro ks
  induction ks with
  | nil =>
    intro st p hp
    rw [detectLoop] at hp
    exact (Prod.mk.injEq _ _ _ _ ▸ hp).2.symm
  | cons k ks ih =>
    intro st p hp
    rw [detectLoop] at hp
    by_cases hk : k ∉ st.visited
    · rw [if_pos hk] at hp
      rcases hrun : dfsVisit adj fuel k [] st with _ | r
      · rw [hrun] at hp
        exact (Prod.mk.injEq _ _ _ _ ▸ hp).2.symm
      · rcases r with ⟨b, st1⟩
        rcases b with _ | _
        · rw [hrun] at hp
          exact ih st1 p hp
        · rw [hrun] at hp
          exact absurd (Prod.mk.injEq _ _ _ _ ▸ hp).1 (by simp)
    · rw [if_neg hk] at hp
      exact ih st p hp

/-- Completeness invariant of the driver loop: if it answers `false`
then no node on a cycle is among the remaining keys or already visited. -/
theorem detectLoop_no_cycle (tasks : List Task) :
    ∀ (ks : List Int) (st : DfsState),
      (∀ k ∈ ks, k ∈ univNodes tasks) →
      st.visited.Nodup → (∀ x ∈ st.visited, x ∈ univNodes tasks) →
      st.recStack = [] → blackOK (adjacency tasks) st →
      (detectLoop (adjacency tasks) (detect_fuel tasks) ks st).1 = false →
      ∀ n, Relation.TransGen (edgeRel (adjacency tasks)) n n →
        n ∉ ks ∧ n ∉ st.visited := by
  intro ks
  induction ks with
  | nil =>
    intro st hks hvnd hvsub hrs hblack hres n hcyc
    refine ⟨by simp, fun hnv => ?_⟩
    exact hblack n hnv (by rw [hrs]; simp) hcyc
  | cons k ks ih =>
    intro st hks hvnd hvsub hrs hblack hres n hcyc
    rw [detectLoop] at hres
    by_cases hk : k ∉ st.visited
    · rw [if_pos hk] at hres
      obtain ⟨res, st1, hrun, ⟨e, he⟩, hknode, hnd1, hsub1, hfalse1, htrue1⟩ :=
        dfsVisit_spec (adjacency tasks) (univNodes tasks)
          (fun a b hb => adjacency_subset_univNodes hb) (nodup_univNodes tasks)
          (detect_fuel tasks) k [] st
          (by rw [detect_fuel]; omega)
          (hks k (List.mem_cons_self _ _)) hk hvnd hvsub
          (fun x hx => by rw [hrs] at hx; cases hx)
          (fun x => by rw [hrs])
          (by simp)
          hblack
      rw [hrun] at hres
      rcases res with _ | _
      · obtain ⟨hrs1, hrssub1, hblack1⟩ := hfalse1 rfl
        have hrec := ih st1 (fun x hx => hks x (List.mem_cons_of_mem _ hx))
          hnd1 hsub1 (by rw [hrs1]; exact hrs) hblack1 hres n hcyc
        refine ⟨fun hmem => ?_, fun hnv => hrec.2 (by
          rw [he]; exact List.mem_append_right _ hnv)⟩
        rcases List.mem_cons.mp hmem with rfl | hmem
        · exact hrec.2 hknode
        · exact hrec.1 hmem
      · simp at hres
    · rw [if_neg hk] at hres
      have hkv : k ∈ st.visited := not_not.mp hk
      have hrec := ih st (fun x hx => hks x (List.mem_cons_of_mem _ hx))
        hvnd hvsub hrs hblack hres n hcyc
      refine ⟨fun hmem => ?_, hrec.2⟩
      rcases List.mem_cons.mp hmem with rfl | hmem
      · exact hrec.2 hkv
      · exact hrec.1 hmem

/-- Soundness of the driver loop: a `true` answer comes with a real cycle
in the graph and a non-empty reported path. -/
theorem detectLoop_cycle (tasks : List Task) :
    ∀ (ks : List Int) (st : DfsState) (p : List Int),
      (∀ k ∈ ks, k ∈ univNodes tasks) →
      st.visited.Nodup → (∀ x ∈ st.visited, x ∈ univNodes tasks) →
      st.recStack = [] → blackOK (adjacency tasks) st →
      detectLoop (adjacency tasks) (detect_fuel tasks) ks st = (true, p) →
      (∃ m, Relation.TransGen (edgeRel (adjacency tasks)) m m) ∧ p ≠ [] := by
  intro ks
  induction ks with
  | nil =>
    intro st p hks hvnd hvsub hrs hblack hres
    rw [detectLoop] at hres
    exact absurd (Prod.mk.injEq _ _ _ _ ▸ hres).1 (by simp)
  | cons k ks ih =>
    intro st p hks hvnd hvsub hrs hblack hres
    rw [detectLoop] at hres
    by_cases hk : k ∉ st.visited
    · rw [if_pos hk] at hres
      obtain ⟨res, st1, hrun, ⟨e, he⟩, hknode, hnd1, hsub1, hfalse1, htrue1⟩ :=
        dfsVisit_spec (adjacency tasks) (univNodes tasks)
          (fun a b hb => adjacency_subset_univNodes hb) (nodup_univNodes tasks)
          (detect_fuel tasks) k [] st
          (by rw [detect_fuel]; omega)
          (hks k (List.mem_cons_self _ _)) hk hvnd hvsub
          (fun x hx => by rw [hrs] at hx; cases hx)
          (fun x => by rw [hrs])
          (by simp)
          hblack
      rw [hrun] at hres
      rcases res with _ | _
      · obtain ⟨hrs1, hrssub1, hblack1⟩ := hfalse1 rfl
        exact ih st1 p (fun x hx => hks x (List.mem_cons_of_mem _ hx))
          hnd1 hsub1 (by rw [hrs1]; exact hrs) hblack1 hres
      · obtain ⟨hcyc, hcp⟩ := htrue1 rfl
        obtain ⟨-, hp⟩ : true = true ∧ st1.cyclePath = p :=
          Prod.mk.injEq _ _ _ _ ▸ hres
        exact ⟨hcyc, hp ▸ hcp⟩
    · rw [if_neg hk] at hres
      exact ih st p (fun x hx => hks x (List.mem_cons_of_mem _ hx))
        hvnd hvsub hrs hblack hres

/-- The detector answers `true` precisely on batches whose dependency
graph has a directed cycle, and a `false` answer always carries the
empty path. -/
theorem detect_true_iff_hasCycle (tasks : List Task) :
    (detect_circular_dependencies tasks).1 = true ↔ hasCycleSpec tasks := by
  constructor
  · intro h
    rcases hd : detect_circular_dependencies tasks with ⟨b, p⟩
    rw [hd] at h
    obtain rfl : b = true := h
    have := detectLoop_cycle tasks (keysList tasks) ⟨[], [], []⟩ p
      (fun k hk => keysList_subset_univNodes hk)
      (by simp) (by simp) rfl
      (fun m hm _ => by simp at hm)
      hd
    exact this.1.imp (fun m hm => hm)
  · intro hcyc
    by_contra hfalse
    have hres : (detect_circular_dependencies tasks).1 = false :=
      Bool.not_eq_true _ ▸ hfalse
    obtain ⟨n, hn⟩ := hcyc
    have hnk : n ∈ keysList tasks := by
      obtain ⟨c, hedge, -⟩ := (Relation.TransGen.head'_iff).mp hn
      exact edge_src_mem_keysList hedge
    have := detectLoop_no_cycle tasks (keysList tasks) ⟨[], [], []⟩
      (fun k hk => keysList_subset_univNodes hk)
      (by simp) (by simp) rfl
      (fun m hm _ => by simp at hm)
      hres n hn
    exact this.1 hnk

theorem detect_eq_false_iff (tasks : List Task) :
    detect_circular_dependencies tasks = (false, []) ↔ ¬ hasCycleSpec tasks := by
  constructor
  · intro h hcyc
    have := (detect_true_iff_hasCycle tasks).mpr hcyc
    rw [h] at this
    simp at this
  · intro hnc
    rcases hd : detect_circular_dependencies tasks with ⟨b, p⟩
    rcases b with _ | _
    · have hp : p = [] := detectLoop_false_path _ _ _ _ _ hd
      rw [hp]
    · exact absurd ((detect_true_iff_hasCycle tasks).mp (by rw [hd])) hnc

theorem dfsLoop_congr
    (visitF1 visitF2 : Int → List Int → DfsState → Option (Bool × DfsState))
    (hvf : ∀ nb p s r, visitF1 nb p s = some r → visitF2 nb p s = some r) :
    ∀ (nbs : List Int) (node : Int) (path1 : List Int) (st : DfsState)
      (r : Bool × DfsState),
      dfsLoop visitF1 node path1 nbs st = some r →
      dfsLoop visitF2 node path1 nbs st = some r := by
  intro nbs
  induction nbs with
  | nil => intro node path1 st r hr; exact hr
  | cons nb rest ih =>
    intro node path1 st r hr
    rw [dfsLoop] at hr
    rw [dfsLoop]
    by_cases hnb : nb ∉ st.visited
    · rw [if_pos hnb] at hr
      rw [if_pos hnb]
      rcases hrun : visitF1 nb path1 st with _ | r1
      · rw [hrun] at hr; cases hr
      · rw [hrun] at hr
        rw [hvf nb path1 st r1 hrun]
        rcases r1 with ⟨b, st1⟩
        rcases b with _ | _
        · exact ih node path1 st1 r hr
        · exact hr
    · rw [if_neg hnb] at hr
      rw [if_neg hnb]
      by_cases hrs : nb ∈ st.recStack
      · rw [if_pos hrs] at hr; rw [if_pos hrs]; exact hr
      · rw [if_neg hrs] at hr; rw [if_neg hrs]; exact ih node path1 st r hr

theorem dfsVisit_succ (adj : Int → List Int) :
    ∀ (f : Nat) (node : Int) (path : List Int) (st : DfsState)
      (r : Bool × DfsState),
      dfsVisit adj f node path st = some r →
      dfsVisit adj (f + 1) node path st = some r := by
  intro f
  induction f with
  | zero => intro node path st r hr; cases hr
  | succ g ih =>
    intro node path st r hr
    rw [dfsVisit] at hr
    rw [dfsVisit]
    exact dfsLoop_congr _ _ (fun nb p s r1 h1 => ih nb p s r1 h1) _ _ _ _ _ hr

theorem dfsVisit_mono (adj : Int → List Int) {f f' : Nat} (hle : f ≤ f') :
    ∀ (node : Int) (path : List Int) (st : DfsState) (r : Bool × DfsState),
      dfsVisit adj f node path st = some r →
      dfsVisit adj f' node path st = some r := by
  induction f' , hle using Nat.le_induction with
  | base => intro node path st r hr; exact hr
  | succ n hn ih =>
    intro node path st r hr
    exact dfsVisit_succ adj n node path st r (ih node path st r hr)

/-- Extra fuel beyond `detect_fuel` does not change the driver loop:
its recursion has already reached a fixed point, which is the
termination statement for the embedded search. -/
theorem detectLoop_fuel_add (tasks : List Task) (extra : Nat) :
    ∀ (ks : List Int) (st : DfsState),
      (∀ k ∈ ks, k ∈ univNodes tasks) →
      st.visited.Nodup → (∀ x ∈ st.visited, x ∈ univNodes tasks) →
      st.recStack = [] → blackOK (adjacency tasks) st →
      detectLoop (adjacency tasks) (detect_fuel tasks + extra) ks st =
        detectLoop (adjacency tasks) (detect_fuel tasks) ks st := by
  intro ks
  induction ks with
  | nil => intro st _ _ _ _ _; rfl
  | cons k ks ih =>
    intro st hks hvnd hvsub hrs hblack
    rw [detectLoop, detectLoop]
    by_cases hk : k ∉ st.visited
    · rw [if_pos hk, if_pos hk]
      obtain ⟨res, st1, hrun, ⟨e, he⟩, hknode, hnd1, hsub1, hfalse1, htrue1⟩ :=
        dfsVisit_spec (adjacency tasks) (univNodes tasks)
          (fun a b hb => adjacency_subset_univNodes hb) (nodup_univNodes tasks)
          (detect_fuel tasks) k [] st
          (by rw [detect_fuel]; omega)
          (hks k (List.mem_cons_self _ _)) hk hvnd hvsub
          (fun x hx => by rw [hrs] at hx; cases hx)
          (fun x => by rw [hrs])
          (by simp)
          hblack
      have hrun' := dfsVisit_mono (adjacency tasks)
        (Nat.le_add_right (detect_fuel tasks) extra) k [] st (res, st1) hrun
      rw [hrun, hrun']
      rcases res with _ | _
      · obtain ⟨hrs1, hrssub1, hblack1⟩ := hfalse1 rfl
        exact ih st1 (fun x hx => hks x (List.mem_cons_of_mem _ hx))
          hnd1 hsub1 (by rw [hrs1]; exact hrs) hblack1
      · rfl
    · rw [if_neg hk, if_neg hk]
      exact ih st (fun x hx => hks x (List.mem_cons_of_mem _ hx))
        hvnd hvsub hrs hblack

/-- Extra fuel: `detect_circular_dependencies` is insensitive to extra fuel. -/
theorem detectWithFuel_add (tasks : List Task) (extra : Nat) :
    detectWithFuel tasks (detect_fuel tasks + extra) =
      detect_circular_dependencies tasks := by
  rw [detect_circular_dependencies, detectWithFuel, detectWithFuel]
  exact detectLoop_fuel_add tasks extra (keysList tasks) ⟨[], [], []⟩
    (fun k hk => keysList_subset_univNodes hk)
    (by simp) (by simp) rfl
    (fun m hm _ => by simp at hm)

/-! ## Behavior of `analyze_tasks` and `get_top_suggestions` -/

theorem analyze_tasks_cycle (h : String → Int) (w : Weights) (today : Int)
    (tasks : List Task) (hne : tasks ≠ []) (hcyc : hasCycleSpec tasks) :
    analyze_tasks h w today tasks =
      ([], some ("Circular dependency detected: " ++
        String.intercalate " -> "
          ((detect_circular_dependencies tasks).2.map toString))) := by
  have hb : (detect_circular_dependencies tasks).1 = true :=
    (detect_true_iff_hasCycle tasks).mpr hcyc
  have hempty : tasks.isEmpty = false := by
    rcases tasks with _ | _
    · exact absurd rfl hne
    · rfl
  rw [analyze_tasks]
  rw [hempty]
  simp only [Bool.false_eq_true, if_false, hb, if_true]

theorem analyze_tasks_acyclic (h : String → Int) (w : Weights) (today : Int)
    (tasks : List Task) (hne : tasks ≠ []) (hnc : ¬ hasCycleSpec tasks) :
    analyze_tasks h w today tasks =
      ((tasks.map (fun t => score_task h w today t tasks)).insertionSort scoreGE,
        none) := by
  have hd : detect_circular_dependencies tasks = (false, []) :=
    (detect_eq_false_iff tasks).mpr hnc
  have hempty : tasks.isEmpty = false := by
    rcases tasks with _ | _
    · exact absurd rfl hne
    · rfl
  rw [analyze_tasks]
  rw [hempty]
  simp only [Bool.false_eq_true, if_false, hd]

/-- A `none` error from `analyze_tasks` can only come from the scoring
branch, so the first component is the sorted scored batch. -/
theorem analyze_tasks_of_error_none (h : String → Int) (w : Weights)
    (today : Int) (tasks : List Task)
    (hnone : (analyze_tasks h w today tasks).2 = none) :
    tasks ≠ [] ∧ ¬ hasCycleSpec tasks ∧
    analyze_tasks h w today tasks =
      ((tasks.map (fun t => score_task h w today t tasks)).insertionSort scoreGE,
        none) := by
  rcases htasks : tasks with _ | ⟨t, ts⟩
  · rw [htasks] at hnone
    cases hnone
  · rw [← htasks]
    have hne : tasks ≠ [] := by rw [htasks]; simp
    by_cases hcyc : hasCycleSpec tasks
    · rw [analyze_tasks_cycle h w today tasks hne hcyc] at hnone
      cases hnone
    · exact ⟨hne, hcyc, analyze_tasks_acyclic h w today tasks hne hcyc⟩

theorem enumFrom_map_snd {α : Type} :
    ∀ (l : List α) (n : Nat), (List.enumFrom n l).map (fun p => p.2) = l := by
  intro l
  induction l with
  | nil => intro n; rfl
  | cons x xs ih =>
    intro n
    rw [List.enumFrom_cons, List.map_cons, ih]

theorem enumFrom_map_rank {α : Type} :
    ∀ (l : List α) (n : Nat),
      (List.enumFrom n l).map (fun p => p.1 + 1) = List.range' (n + 1) l.length := by
  intro l
  induction l with
  | nil => intro n; rfl
  | cons x xs ih =>
    intro n
    rw [List.enumFrom_cons, List.map_cons, ih, List.length_cons, List.range'_succ]

theorem get_top_suggestions_of_error (h : String → Int) (w : Weights)
    (today : Int) (tasks : List Task) (count : Nat)
    (herr : (analyze_tasks h w today tasks).2 ≠ none) :
    get_top_suggestions h w today tasks count = [] := by
  rw [get_top_suggestions]
  rcases hr : (analyze_tasks h w today tasks).2 with _ | e
  · exact absurd hr herr
  · simp only [hr]

theorem get_top_suggestions_of_none (h : String → Int) (w : Weights)
    (today : Int) (tasks : List Task) (count : Nat)
    (hnone : (analyze_tasks h w today tasks).2 = none) :
    (get_top_suggestions h w today tasks count).length = min count tasks.length ∧
    (get_top_suggestions h w today tasks count).map Suggestion.rank =
      List.range' 1 (min count tasks.length) ∧
    (get_top_suggestions h w today tasks count).map Suggestion.task =
      (analyze_tasks h w today tasks).1.take count := by
  obtain ⟨-, -, heq⟩ := analyze_tasks_of_error_none h w today tasks hnone
  have hlen : (analyze_tasks h w today tasks).1.length = tasks.length := by
    rw [heq]
    rw [List.length_insertionSort, List.length_map]
  have hgts : get_top_suggestions h w today tasks count =
      ((analyze_tasks h w today tasks).1.take count).enum.map (fun p =>
        { task := p.2
          score := p.2.priority_score
          explanation := generate_detailed_suggestion p.2 (p.1 + 1)
          rank := p.1 + 1 }) := by
    rw [get_top_suggestions]
    simp only [hnone]
  have htk : ((analyze_tasks h w today tasks).1.take count).length =
      min count tasks.length := by
    rw [List.length_take, hlen]
  refine ⟨?_, ?_, ?_⟩
  · rw [hgts, List.length_map, List.enum, List.enumFrom_length, htk]
  · rw [hgts, List.map_map, List.enum]
    have : (Suggestion.rank ∘ fun p : Nat × ScoredTask =>
        ({ task := p.2, score := p.2.priority_score,
           explanation := generate_detailed_suggestion p.2 (p.1 + 1),
           rank := p.1 + 1 } : Suggestion)) = fun p => p.1 + 1 := rfl
    rw [this, enumFrom_map_rank, htk]
  · rw [hgts, List.map_map, List.enum]
    have : (Suggestion.task ∘ fun p : Nat × ScoredTask =>
        ({ task := p.2, score := p.2.priority_score,
           explanation := generate_detailed_suggestion p.2 (p.1 + 1),
           rank := p.1 + 1 } : Suggestion)) = fun p => p.2 := rfl
    rw [this, enumFrom_map_snd]

/-! ## Misc bridging lemmas and example batches -/

theorem pyMin_eq_min (a b : ℚ) : pyMin a b = min a b := by
  rw [pyMin, min_def]

theorem pyMax_eq_max (a b : ℚ) : pyMax a b = max a b := by
  rw [pyMax, max_def]
  rcases lt_trichotomy a b with hab | hab | hab
  · rw [if_neg (not_le.mpr hab), if_pos (le_of_lt hab)]
  · subst hab; simp
  · rw [if_pos (le_of_lt hab), if_neg (not_le.mpr hab)]

theorem urgency_days (today due_date : Int) :
    (calculate_urgency_score today due_date).2 = due_date - today := by
  simp only [calculate_urgency_score]
  split_ifs <;> rfl

/-- A task described only by an id and a dependency list, all optional
fields absent (convenience for the spec's worked examples). -/
def exTask (i : Int) (deps : List Int) : Task :=
  { id := some i
    title := "t"
    due_date := DateInput.missing
    importance := none
    estimated_hours := none
    dependencies := some deps }

/-- A one-task batch whose task depends on itself. -/
def selfLoopBatch : List Task := [exTask 1 [1]]

/-- A `true` answer of the detector always carries a non-empty path. -/
theorem detect_true_path_ne {tasks : List Task} {p : List Int}
    (hd : detect_circular_dependencies tasks = (true, p)) : p ≠ [] :=
  (detectLoop_cycle tasks (keysList tasks) ⟨[], [], []⟩ p
    (fun k hk => keysList_subset_univNodes hk)
    (by simp) (by simp) rfl
    (fun m hm _ => by simp at hm)
    hd).2

/-! ## The claims -/

/-- Claim C2: `calculate_urgency_score` returns
`days_until_due = due_date - today`, and the score follows the seven
piecewise rules with the stated ranges, boundaries belonging to the
lower range. -/
theorem claim_C2 (today due_date : Int) :
    (calculate_urgency_score today due_date).2 = due_date - today ∧
    (due_date - today < 0 →
      (calculate_urgency_score today due_date).1 =
        min 100 (80 + ((due_date - today).natAbs : ℚ) * 4)) ∧
    (due_date - today = 0 →
      (calculate_urgency_score today due_date).1 = 95) ∧
    (1 ≤ due_date - today → due_date - today ≤ 3 →
      (calculate_urgency_score today due_date).1 =
        90 - ((due_date - today : Int) : ℚ) * 5) ∧
    (4 ≤ due_date - today → due_date - today ≤ 7 →
      (calculate_urgency_score today due_date).1 =
        70 - (((due_date - today : Int) : ℚ) - 3) * 5) ∧
    (8 ≤ due_date - today → due_date - today ≤ 14 →
      (calculate_urgency_score today due_date).1 =
        50 - (((due_date - today : Int) : ℚ) - 7) * 2) ∧
    (15 ≤ due_date - today → due_date - today ≤ 30 →
      (calculate_urgency_score today due_date).1 =
        max 10 (30 - (((due_date - today : Int) : ℚ) - 14))) ∧
    (30 < due_date - today →
      (calculate_urgency_score today due_date).1 =
        max 5 (20 - ((due_date - today : Int) : ℚ) / 10)) := by
  refine ⟨urgency_days today due_date, fun h1 => ?_, fun h1 => ?_,
    fun h1 h2 => ?_, fun h1 h2 => ?_, fun h1 h2 => ?_, fun h1 h2 => ?_,
    fun h1 => ?_⟩ <;>
    simp only [calculate_urgency_score]
  · rw [if_pos h1]
    exact pyMin_eq_min _ _
  · rw [if_neg (by omega), if_pos h1]
  · rw [if_neg (by omega), if_neg (by omega), if_pos h2]
  · rw [if_neg (by omega), if_neg (by omega), if_neg (by omega), if_pos h2]
  · rw [if_neg (by omega), if_neg (by omega), if_neg (by omega),
      if_neg (by omega), if_pos h2]
  · rw [if_neg (by omega), if_neg (by omega), if_neg (by omega),
      if_neg (by omega), if_neg (by omega), if_pos h2]
    have : (30 : ℚ) - (((due_date - today : Int) : ℚ) - 14) * 1 =
        30 - (((due_date - today : Int) : ℚ) - 14) := by ring
    rw [pyMax_eq_max, this]
  · rw [if_neg (by omega), if_neg (by omega), if_neg (by omega),
      if_neg (by omega), if_neg (by omega), if_neg (by omega)]
    exact pyMax_eq_max _ _

/-- Claim C3: the detector answers `(false, [])` exactly on acyclic
batches (the empty batch included), answers `true` with a non-empty path
on every cyclic batch, and behaves as stated on the two worked examples
`{1↦[3], 2↦[1], 3↦[2]}` (a cycle) and `{1↦[], 2↦[1], 3↦[2]}` (a chain). -/
theorem claim_C3 :
    (∀ tasks : List Task,
      detect_circular_dependencies tasks = (false, []) ↔ ¬ hasCycleSpec tasks) ∧
    (∀ tasks : List Task, hasCycleSpec tasks →
      (detect_circular_dependencies tasks).1 = true ∧
      (detect_circular_dependencies tasks).2 ≠ []) ∧
    detect_circular_dependencies [] = (false, []) ∧
    detect_circular_dependencies [exTask 1 [3], exTask 2 [1], exTask 3 [2]] =
      (true, [1, 3, 2]) ∧
    detect_circular_dependencies [exTask 1 [], exTask 2 [1], exTask 3 [2]] =
      (false, []) := by
  refine ⟨detect_eq_false_iff, fun tasks hcyc => ?_, rfl, by decide, by decide⟩
  have hb : (detect_circular_dependencies tasks).1 = true :=
    (detect_true_iff_hasCycle tasks).mpr hcyc
  refine ⟨hb, ?_⟩
  rcases hd : detect_circular_dependencies tasks with ⟨b, p⟩
  rw [hd] at hb
  subst hb
  exact detect_true_path_ne hd

/-- Modelled from the spec: the dependent count of §4.2 read literally as
counting only OTHER tasks — tasks whose `id` differs from the scored
task's id — whose dependency list contains the id.  Used to exhibit the
divergence from the code, which also counts the task itself. -/
def dependent_count_other (task_id : Int) (tasks : List Task) : Nat :=
  (tasks.filter (fun t =>
    decide (t.id ≠ some task_id ∧ task_id ∈ t.dependencies.getD []))).length

/-- Claim C4, counterexample: on the one-task batch whose task `1` lists
itself as a dependency, the code counts `1` dependent (the task itself)
and scores `40`, while the claim's count over other tasks is `0` (which
would score `10`). -/
theorem claim_C4_counterexample :
    calculate_dependency_score 1 selfLoopBatch = (40, 1) ∧
    dependent_count_other 1 selfLoopBatch = 0 ∧ (1 : Nat) ≠ 0 := by
  refine ⟨by decide, by decide, by decide⟩

/-- Claim C4 as amended: `dependent_count` is the number of tasks of the
batch — the scored task itself included — whose `dependencies` list
contains the id, and the score is 10/40/70/`min 100 (70+(c-2)*15)` for
counts 0/1/2/greater. -/
theorem claim_C4_amended (task_id : Int) (tasks : List Task) :
    (calculate_dependency_score task_id tasks).2 =
      (tasks.filter (fun t => task_id ∈ t.dependencies.getD [])).length ∧
    ((tasks.filter (fun t => task_id ∈ t.dependencies.getD [])).length = 0 →
      (calculate_dependency_score task_id tasks).1 = 10) ∧
    ((tasks.filter (fun t => task_id ∈ t.dependencies.getD [])).length = 1 →
      (calculate_dependency_score task_id tasks).1 = 40) ∧
    ((tasks.filter (fun t => task_id ∈ t.dependencies.getD [])).length = 2 →
      (calculate_dependency_score task_id tasks).1 = 70) ∧
    (2 < (tasks.filter (fun t => task_id ∈ t.dependencies.getD [])).length →
      (calculate_dependency_score task_id tasks).1 =
        min 100 (70 +
          (((tasks.filter (fun t => task_id ∈ t.dependencies.getD [])).length : ℚ)
            - 2) * 15)) := by
  refine ⟨?_, fun h0 => ?_, fun h1 => ?_, fun h2 => ?_, fun h3 => ?_⟩ <;>
    simp only [calculate_dependency_score]
  · split_ifs with h0 h1 h2
    · exact h0.symm
    · exact h1.symm
    · exact h2.symm
    · rfl
  · rw [if_pos h0]
  · rw [if_neg (by omega), if_pos h1]
  · rw [if_neg (by omega), if_neg (by omega), if_pos h2]
  · rw [if_neg (by omega), if_neg (by omega), if_neg (by omega)]
    exact pyMin_eq_min _ _

/-- Claim C8: analyzing the empty batch returns exactly
`([], "No tasks provided")`: the embedded function is total, so no
exception can occur. -/
theorem claim_C8 (h : String → Int) (w : Weights) (today : Int) :
    analyze_tasks h w today [] = ([], some "No tasks provided") := rfl

/-- Claim C9: the embedded search is given `detect_fuel` units of fuel,
and any extra fuel leaves the result unchanged — the recursion has
terminated within the bound on every finite batch; a self-loop is
detected as a cycle of length 1 rather than looping. -/
theorem claim_C9 :
    (∀ (tasks : List Task) (extra : Nat),
      detectWithFuel tasks (detect_fuel tasks + extra) =
        detect_circular_dependencies tasks) ∧
    detect_circular_dependencies selfLoopBatch = (true, [1]) := by
  exact ⟨detectWithFuel_add, by decide⟩

/-- Claim C1: on a non-empty batch whose dependency graph contains a
cycle, `analyze_tasks` returns the empty list paired with
`"Circular dependency detected: "` followed by the cycle path joined by
`" -> "`; the embedded definition returns from the cycle branch before
the scoring branch, so no task is scored. -/
theorem claim_C1 (h : String → Int) (w : Weights) (today : Int)
    (tasks : List Task) (hne : tasks ≠ []) (hcyc : hasCycleSpec tasks) :
    analyze_tasks h w today tasks =
      ([], some ("Circular dependency detected: " ++
        String.intercalate " -> "
          ((detect_circular_dependencies tasks).2.map toString))) :=
  analyze_tasks_cycle h w today tasks hne hcyc

theorem claim_C1_witness :
    analyze_tasks (fun _ => 5) smartBalance 0 selfLoopBatch =
      ([], some ("Circular dependency detected: " ++
        String.intercalate " -> "
          ((detect_circular_dependencies selfLoopBatch).2.map toString))) := by
  have hedge : (1 : Int) ∈ adjacency selfLoopBatch 1 := by decide
  exact claim_C1 (fun _ => 5) smartBalance 0 selfLoopBatch (by decide)
    ⟨1, Relation.TransGen.single hedge⟩

/-- Claim C5, counterexample: the claim says a non-positive
`estimated_hours` is replaced by `2.0`, but a negative value passes
Python's falsiness test (`or 2.0`) unchanged: scoring a task with
`estimated_hours = -1` keeps `-1`. -/
theorem claim_C5_counterexample :
    (score_task (fun _ => 1) smartBalance 0
      { id := none, title := "X", due_date := DateInput.missing,
        importance := none, estimated_hours := some (-1), dependencies := none }
      []).estimated_hours = -1 ∧ ¬ ((-1 : ℚ) = 2) := by
  refine ⟨rfl, by decide⟩

/-- Claim C5 as amended: `score_task` is total and applies the defaults —
`due_date = today + 7` when the date is missing or unparseable (so
`days_until_due = 7`), `importance = 5` when missing, `estimated_hours =
2.0` when missing or zero (any other value, negative ones included, is
kept), and `dependencies = []` when missing. -/
theorem claim_C5_amended (h : String → Int) (w : Weights) (today : Int)
    (task : Task) (tasks : List Task) :
    ((task.due_date = DateInput.missing ∨ task.due_date = DateInput.badStr) →
      (score_task h w today task tasks).due_date = today + 7 ∧
      (score_task h w today task tasks).days_until_due = 7) ∧
    (task.importance = none → (score_task h w today task tasks).importance = 5) ∧
    ((task.estimated_hours = none ∨ task.estimated_hours = some 0) →
      (score_task h w today task tasks).estimated_hours = 2) ∧
    (∀ q : ℚ, task.estimated_hours = some q → q ≠ 0 →
      (score_task h w today task tasks).estimated_hours = q) ∧
    (task.dependencies = none →
      (score_task h w today task tasks).dependencies = []) := by
  refine ⟨?_, ?_, ?_, ?_, ?_⟩
  · rintro (hdd | hdd) <;>
      refine ⟨by simp [score_task, hdd], ?_⟩ <;>
      simp only [score_task, hdd, urgency_days] <;> omega
  · intro himp
    simp [score_task, himp]
  · rintro (hq | hq) <;> simp [score_task, hq]
  · intro q hq hne
    simp [score_task, hq, if_neg hne]
  · intro hdep
    simp [score_task, hdep]

theorem claim_C5_amended_witness :
    ((({ id := none, title := "X", due_date := DateInput.missing,
         importance := none, estimated_hours := none,
         dependencies := none } : Task).due_date = DateInput.missing ∨
      ({ id := none, title := "X", due_date := DateInput.missing,
         importance := none, estimated_hours := none,
         dependencies := none } : Task).due_date = DateInput.badStr) →
      (score_task (fun _ => 1) smartBalance 0
        { id := none, title := "X", due_date := DateInput.missing,
          importance := none, estimated_hours := none, dependencies := none }
        []).due_date = 0 + 7 ∧
      (score_task (fun _ => 1) smartBalance 0
        { id := none, title := "X", due_date := DateInput.missing,
          importance := none, estimated_hours := none, dependencies := none }
        []).days_until_due = 7) ∧
    (({ id := none, title := "X", due_date := DateInput.missing,
        importance := none, estimated_hours := none,
        dependencies := none } : Task).importance = none →
      (score_task (fun _ => 1) smartBalance 0
        { id := none, title := "X", due_date := DateInput.missing,
          importance := none, estimated_hours := none, dependencies := none }
        []).importance = 5) ∧
    ((({ id := none, title := "X", due_date := DateInput.missing,
         importance := none, estimated_hours := none,
         dependencies := none } : Task).estimated_hours = none ∨
      ({ id := none, title := "X", due_date := DateInput.missing,
         importance := none, estimated_hours := none,
         dependencies := none } : Task).estimated_hours = some 0) →
      (score_task (fun _ => 1) smartBalance 0
        { id := none, title := "X", due_date := DateInput.missing,
          importance := none, estimated_hours := none, dependencies := none }
        []).estimated_hours = 2) ∧
    (∀ q : ℚ,
      ({ id := none, title := "X", due_date := DateInput.missing,
         importance := none, estimated_hours := none,
         dependencies := none } : Task).estimated_hours = some q → q ≠ 0 →
      (score_task (fun _ => 1) smartBalance 0
        { id := none, title := "X", due_date := DateInput.missing,
          importance := none, estimated_hours := none, dependencies := none }
        []).estimated_hours = q) ∧
    (({ id := none, title := "X", due_date := DateInput.missing,
        importance := none, estimated_hours := none,
        dependencies := none } : Task).dependencies = none →
      (score_task (fun _ => 1) smartBalance 0
        { id := none, title := "X", due_date := DateInput.missing,
          importance := none, estimated_hours := none, dependencies := none }
        []).dependencies = []) :=
  claim_C5_amended (fun _ => 1) smartBalance 0
    { id := none, title := "X", due_date := DateInput.missing,
      importance := none, estimated_hours := none, dependencies := none } []

/-- Claim C6: on a non-empty acyclic batch, `analyze_tasks` reports no
error, returns one scored task per input task — a permutation of the
batch scored against the full batch — and the result is sorted by
`priority_score` descending (every adjacent pair is ordered). -/
theorem claim_C6 (h : String → Int) (w : Weights) (today : Int)
    (tasks : List Task) (hne : tasks ≠ []) (hnc : ¬ hasCycleSpec tasks) :
    (analyze_tasks h w today tasks).2 = none ∧
    (analyze_tasks h w today tasks).1.length = tasks.length ∧
    ((analyze_tasks h w today tasks).1).Perm
      (tasks.map (fun t => score_task h w today t tasks)) ∧
    ∀ (i : Nat) (hi : i + 1 < (analyze_tasks h w today tasks).1.length),
      ((analyze_tasks h w today tasks).1.get ⟨i + 1, hi⟩).priority_score ≤
        ((analyze_tasks h w today tasks).1.get
          ⟨i, Nat.lt_of_succ_lt hi⟩).priority_score := by
  have heq := analyze_tasks_acyclic h w today tasks hne hnc
  refine ⟨by rw [heq],
    by rw [heq]; rw [List.length_insertionSort, List.length_map], ?_, ?_⟩
  · rw [heq]
    exact List.perm_insertionSort scoreGE _
  · intro i hi
    have hs : ((analyze_tasks h w today tasks).1).Sorted scoreGE := by
      rw [heq]
      exact List.sorted_insertionSort scoreGE _
    exact hs.rel_get_of_lt (Nat.lt_succ_self i)

/-- The sorting example of the spec: due today / 30 days out / 5 days
out, with importances 9 / 3 / 6 and efforts 1h / 10h / 3h. -/
def threeBatch : List Task :=
  [{ id := some 2
     title := "B"
     due_date := DateInput.dateV 30
     importance := some 3
     estimated_hours := some 10
     dependencies := some [] },
   { id := some 3
     title := "C"
     due_date := DateInput.dateV 5
     importance := some 6
     estimated_hours := some 3
     dependencies := some [] },
   { id := some 1
     title := "A"
     due_date := DateInput.dateV 0
     importance := some 9
     estimated_hours := some 1
     dependencies := some [] }]

theorem claim_C6_witness :
    (analyze_tasks (fun _ => 0) smartBalance 0 threeBatch).2 = none ∧
    (analyze_tasks (fun _ => 0) smartBalance 0 threeBatch).1.length =
      threeBatch.length ∧
    ((analyze_tasks (fun _ => 0) smartBalance 0 threeBatch).1).Perm
      (threeBatch.map (fun t => score_task (fun _ => 0) smartBalance 0 t threeBatch)) ∧
    ∀ (i : Nat)
      (hi : i + 1 < (analyze_tasks (fun _ => 0) smartBalance 0 threeBatch).1.length),
      ((analyze_tasks (fun _ => 0) smartBalance 0 threeBatch).1.get
          ⟨i + 1, hi⟩).priority_score ≤
        ((analyze_tasks (fun _ => 0) smartBalance 0 threeBatch).1.get
          ⟨i, Nat.lt_of_succ_lt hi⟩).priority_score :=
  claim_C6 (fun _ => 0) smartBalance 0 threeBatch (by decide)
    ((detect_eq_false_iff threeBatch).mp (by decide))

/-- Claim C7: `get_top_suggestions` returns the empty sequence whenever
`analyze_tasks` reports an error, and otherwise returns exactly
`min k n` suggestions — the first `k` of the sorted order — carrying
1-based ranks `1, 2, …` in order. -/
theorem claim_C7 (h : String → Int) (w : Weights) (today : Int)
    (tasks : List Task) (k : Nat) :
    ((analyze_tasks h w today tasks).2 ≠ none →
      get_top_suggestions h w today tasks k = []) ∧
    ((analyze_tasks h w today tasks).2 = none →
      (get_top_suggestions h w today tasks k).length = min k tasks.length ∧
      (get_top_suggestions h w today tasks k).map Suggestion.rank =
        List.range' 1 (min k tasks.length) ∧
      (get_top_suggestions h w today tasks k).map Suggestion.task =
        (analyze_tasks h w today tasks).1.take k) :=
  ⟨fun herr => get_top_suggestions_of_error h w today tasks k herr,
   fun hnone => get_top_suggestions_of_none h w today tasks k hnone⟩

/-- Claim C10: when the `id` field is present but `0` (falsy in Python),
`score_task` replaces it by the hash of the title: the output id is the
hash (hence differs from the supplied `0` whenever the hash is
non-zero), the dependency factor is computed for the hash, and tasks
listing `0` among their dependencies do not raise the dependent count —
here no task lists the hash, so the count is `0` and the score `10`. -/
theorem claim_C10 (h : String → Int) (w : Weights) (today : Int)
    (task : Task) (tasks : List Task)
    (hid : task.id = some 0) (hh : h task.title ≠ 0)
    (hnd : ∀ t ∈ tasks, h task.title ∉ t.dependencies.getD []) :
    (score_task h w today task tasks).id = h task.title ∧
    (score_task h w today task tasks).id ≠ 0 ∧
    (score_task h w today task tasks).dependency_score =
      round2 (calculate_dependency_score (h task.title) tasks).1 ∧
    (calculate_dependency_score (h task.title) tasks).2 = 0 ∧
    (calculate_dependency_score (h task.title) tasks).1 = 10 := by
  have hcount :
      (tasks.filter (fun t => (h task.title) ∈ t.dependencies.getD [])).length
        = 0 := by
    rw [List.length_eq_zero, List.filter_eq_nil_iff]
    intro t ht
    simpa using hnd t ht
  have hidall : (score_task h w today task tasks).id = h task.title := by
    simp [score_task, hid]
  refine ⟨hidall, by rw [hidall]; exact hh, ?_, ?_, ?_⟩
  · simp [score_task, hid]
  · simp only [calculate_dependency_score, hcount]
    rfl
  · simp only [calculate_dependency_score, hcount]
    rfl

theorem claim_C10_witness :
    (score_task (fun _ => 7) smartBalance 0 (exTask 0 [])
      [exTask 0 [], exTask 2 [0]]).id = 7 ∧
    (score_task (fun _ => 7) smartBalance 0 (exTask 0 [])
      [exTask 0 [], exTask 2 [0]]).id ≠ 0 ∧
    (score_task (fun _ => 7) smartBalance 0 (exTask 0 [])
      [exTask 0 [], exTask 2 [0]]).dependency_score =
      round2 (calculate_dependency_score 7 [exTask 0 [], exTask 2 [0]]).1 ∧
    (calculate_dependency_score 7 [exTask 0 [], exTask 2 [0]]).2 = 0 ∧
    (calculate_dependency_score 7 [exTask 0 [], exTask 2 [0]]).1 = 10 :=
  claim_C10 (fun _ => 7) smartBalance 0 (exTask 0 [])
    [exTask 0 [], exTask 2 [0]] (by decide) (by decide) (by decide)

end Scoring
